import Mathlib

/-!
Verification development for the `wikepedia_parser.py` core pipeline of the
dissimilar-word-generator repository.

The Python source is shallowly embedded here:

* `pyLower`, `pyStrip`, `pyIsSpace` model Python's `str.lower`, `str.strip`
  and the `\s` character class for the characters relevant to this program.
* `hasVietnameseDiacritic`, `extract_words` model the extraction logic of
  `WikiExtractor.has_vietnamese_diacritic` / `WikiExtractor.extract_words`;
  each `re.sub` / `re.split` / `re.findall` call is embedded as a dedicated
  recursive scanner over `List Char` with Python's leftmost-match semantics.
* `stepP` / `runP` model the line-by-line state machine of
  `WikiExtractor.parse_dump_regex` (the per-record line cap is taken as an
  explicit parameter, instantiated with the source's literal 10000).
* `saveWordsPrimary` / `saveWordsFallback` model the two deduplication paths
  of `WikiExtractor.save_words` (`LC_ALL=C sort -u`, and `LC_ALL=C sort`
  followed by a streaming adjacent-duplicate pass).  `LC_ALL=C sort` orders
  lines by UTF-8 byte sequence; since UTF-8 preserves code-point order,
  byte-lexicographic order on lines coincides with lexicographic order on
  `String.data`, which is the order `lineLe`/`lineLt` used below.

Python `set`s are modelled as duplicate-free lists; every downstream use in
the program (spooling followed by external sorting) is insensitive to the
iteration order of the set, so the chosen list order is immaterial.
-/

namespace WikiWords

/-- The string literal `vietnamese_chars` from `has_vietnamese_diacritic`. -/
def vietnameseChars : List Char :=
  "àáạảãâầấậẩẫăằắặẳẵèéẹẻẽêềếệểễìíịỉĩòóọỏõôồốộổỗơờớợởỡùúụủũưừứựửữỳýỵỷỹđ".toList

/-- Uppercase forms of `vietnameseChars` (plus `Đ`), in the same order;
used to model Python's `str.lower` on the characters this program handles. -/
def vietnameseUpperChars : List Char :=
  "ÀÁẠẢÃÂẦẤẬẨẪĂẰẮẶẲẴÈÉẸẺẼÊỀẾỆỂỄÌÍỊỈĨÒÓỌỎÕÔỒỐỘỔỖƠỜỚỢỞỠÙÚỤỦŨƯỪỨỰỬỮỲÝỴỶỸĐ".toList

/-- ASCII uppercase letters. -/
def asciiUpper : List Char := "ABCDEFGHIJKLMNOPQRSTUVWXYZ".toList

/-- ASCII lowercase letters. -/
def asciiLower : List Char := "abcdefghijklmnopqrstuvwxyz".toList

/-- Lookup table sending each uppercase letter handled by this program to its
lowercase form (ASCII A-Z plus the Vietnamese uppercase letters). -/
def lowerTable : List (Char × Char) :=
  (asciiUpper ++ vietnameseUpperChars).zip (asciiLower ++ (vietnameseChars ++ ['đ']))

/-- Python `str.lower` on one character, restricted to the alphabets this
program manipulates; characters outside the table are left unchanged. -/
def pyLowerChar (c : Char) : Char :=
  match lowerTable.lookup c with
  | some l => l
  | none => c

/-- Python `str.lower` (character-wise on the alphabets of this program). -/
def pyLower (s : String) : String :=
  ⟨s.data.map pyLowerChar⟩

/-- Python's whitespace class (`\s` in `re`, and the default `str.strip` set). -/
def pyIsSpace (c : Char) : Bool :=
  c = ' ' || c = '\t' || c = '\n' || c = '\r' || c = '\x0b' || c = '\x0c' ||
  c = '\x1c' || c = '\x1d' || c = '\x1e' || c = '\x1f' || c = '\x85' || c = '\xa0' ||
  c = '\u1680' || ('\u2000' ≤ c && c ≤ '\u200a') || c = '\u2028' || c = '\u2029' ||
  c = '\u202f' || c = '\u205f' || c = '\u3000'

/-- Python `str.strip()`: remove leading and trailing whitespace. -/
def pyStrip (s : String) : String :=
  ⟨((s.data.dropWhile pyIsSpace).reverse.dropWhile pyIsSpace).reverse⟩

/-- `WikiExtractor.has_vietnamese_diacritic`:
`any(char in vietnamese_chars for char in text.lower())`. -/
def hasVietnameseDiacritic (text : String) : Bool :=
  (pyLower text).data.any (fun c => vietnameseChars.contains c)

/-! ### The deduplicator (`WikiExtractor.save_words`)

The spool file is modelled as its list of lines (each physical line `w\n`
contributing the string `w`).  `LC_ALL=C sort` is modelled as a sort by
`lineLe`; since the sorted permutation of a list under a total antisymmetric
order is unique, any correct sort models the external utility faithfully. -/

/-- Byte order on spool lines (see header: for UTF-8 data, code-point
lexicographic order on `String.data` is byte-lexicographic order). -/
def lineLe (a b : String) : Prop := a.data ≤ b.data

/-- Strict byte order on spool lines. -/
def lineLt (a b : String) : Prop := a.data < b.data

instance : DecidableRel lineLe := fun a b => inferInstanceAs (Decidable (a.data ≤ b.data))

instance : DecidableRel lineLt := fun a b => inferInstanceAs (Decidable (a.data < b.data))

instance : IsTotal String lineLe := ⟨fun a b => le_total a.data b.data⟩

instance : IsTrans String lineLe := ⟨fun _ _ _ h h' => le_trans h h'⟩

/-- `LC_ALL=C sort`: the lines in byte order. -/
def sortLines (l : List String) : List String := l.insertionSort lineLe

/-- Adjacent-duplicate removal with a current previous line, as performed by
`sort -u` on an already sorted stream. -/
def dedupAdjacentFrom (prev : String) : List String → List String
  | [] => []
  | a :: rest => if a = prev then dedupAdjacentFrom prev rest else a :: dedupAdjacentFrom a rest

/-- Adjacent-duplicate removal (the `-u` of `sort -u`). -/
def dedupAdjacent : List String → List String
  | [] => []
  | a :: rest => a :: dedupAdjacentFrom a rest

/-- Primary path of `save_words`: `LC_ALL=C sort -u temp > out`. -/
def saveWordsPrimary (spool : List String) : List String :=
  dedupAdjacent (sortLines spool)

/-- The fallback streaming pass of `save_words`: over the sorted file,
`word = line.strip(); if word and word != prev_word: write(word); prev_word = word`
(`prev_word` starts as `None`, modelled by `Option.none`). -/
def streamDedup (prev : Option String) : List String → List String
  | [] => []
  | line :: rest =>
    let word := pyStrip line
    if word ≠ "" ∧ some word ≠ prev then word :: streamDedup (some word) rest
    else streamDedup prev rest

/-- Fallback path of `save_words`: `LC_ALL=C sort temp > sorted` followed by
the streaming adjacent-duplicate pass. -/
def saveWordsFallback (spool : List String) : List String :=
  streamDedup none (sortLines spool)

/-! ### Helper facts used by the termination arguments of the scanners -/

theorem length_dropWhile_le (p : Char → Bool) (l : List Char) :
    (l.dropWhile p).length ≤ l.length := by
  induction l with
  | nil => simp [List.dropWhile]
  | cons a l ih =>
    simp only [List.dropWhile]
    split
    · exact le_trans ih (by simp)
    · simp

theorem length_takeWhile_add_dropWhile (p : Char → Bool) (l : List Char) :
    (l.takeWhile p).length + (l.dropWhile p).length = l.length := by
  conv_rhs => rw [← List.takeWhile_append_dropWhile p l]
  rw [List.length_append]

/-! ### The markup stripper and token extractor (`WikiExtractor.extract_words`)

Each `re.sub`, `re.split` and `re.findall` call of the source is embedded as a
recursive scanner over `List Char` implementing Python's leftmost,
non-overlapping match semantics for that particular pattern (the patterns are
simple enough that the backtracking behaviour collapses to maximal-run scans,
as noted branch by branch). -/

/-- Pass 1, `re.sub(r"\x7b\x7b[^}]+\x7d\x7d", "", text)`: remove template blocks.
A match is two opening braces, a nonempty maximal run of non-brace characters
(`[^}]+` is greedy and cannot be shrunk onto a non-brace successfully), then
two closing braces. -/
def stripTemplates : List Char → List Char
  | [] => []
  | '{' :: '{' :: rest =>
    let mid := rest.takeWhile (fun c => c ≠ '}')
    let dropped := rest.dropWhile (fun c => c ≠ '}')
    if !mid.isEmpty && ['}', '}'].isPrefixOf dropped then stripTemplates (dropped.drop 2)
    else '{' :: stripTemplates ('{' :: rest)
  | c :: rest => c :: stripTemplates rest
  termination_by l => l.length
  decreasing_by
  · have h1 := length_dropWhile_le (fun c => decide (c ≠ '}')) rest
    have h2 := List.length_drop 2 (rest.dropWhile (fun c => decide (c ≠ '}')))
    simp only [List.length_cons]
    omega
  · simp
  · simp

/-- Pass 2, `re.sub(r"\[\[(?:[^|\]]*\|)?([^\]]+)\]\]", r"\1", text)`: resolve
link markup to its display text.  The optional piped group is tried first
(`[^|\]]*` is a maximal run that must be followed by a literal pipe); on
failure the plain alternative captures a nonempty maximal run of
non-bracket characters that must be followed by two closing brackets. -/
def resolveLinks : List Char → List Char
  | [] => []
  | '[' :: '[' :: rest =>
    let afterRun := rest.dropWhile (fun c => c ≠ '|' && c ≠ ']')
    let pipedCap := (afterRun.drop 1).takeWhile (fun c => c ≠ ']')
    let pipedAfter := (afterRun.drop 1).dropWhile (fun c => c ≠ ']')
    let plainCap := rest.takeWhile (fun c => c ≠ ']')
    let plainAfter := rest.dropWhile (fun c => c ≠ ']')
    if ['|'].isPrefixOf afterRun && !pipedCap.isEmpty && [']', ']'].isPrefixOf pipedAfter then
      pipedCap ++ resolveLinks (pipedAfter.drop 2)
    else if !plainCap.isEmpty && [']', ']'].isPrefixOf plainAfter then
      plainCap ++ resolveLinks (plainAfter.drop 2)
    else '[' :: resolveLinks ('[' :: rest)
  | c :: rest => c :: resolveLinks rest
  termination_by l => l.length
  decreasing_by
  · have h1 := length_dropWhile_le (fun c => c ≠ '|' && c ≠ ']') rest
    have h2 := length_dropWhile_le (fun c => decide (c ≠ ']'))
      ((rest.dropWhile (fun c => c ≠ '|' && c ≠ ']')).drop 1)
    have h3 := List.length_drop 1 (rest.dropWhile (fun c => c ≠ '|' && c ≠ ']'))
    have h4 := List.length_drop 2
      (((rest.dropWhile (fun c => c ≠ '|' && c ≠ ']')).drop 1).dropWhile (fun c => decide (c ≠ ']')))
    simp only [List.length_cons]
    omega
  · have h1 := length_dropWhile_le (fun c => decide (c ≠ ']')) rest
    have h2 := List.length_drop 2 (rest.dropWhile (fun c => decide (c ≠ ']')))
    simp only [List.length_cons]
    omega
  · simp
  · simp

/-- `pat` occurs as a contiguous subsequence of `l` (Python's `pat in line`). -/
def containsSub (pat l : List Char) : Bool :=
  l.tails.any (fun t => pat.isPrefixOf t)

/-- Drop everything up to and including the first occurrence of `pat`
(meaningful when `containsSub pat l`; returns `[]` otherwise). -/
def dropAfterFirst (pat : List Char) : List Char → List Char
  | [] => []
  | c :: rest =>
    if pat.isPrefixOf (c :: rest) then (c :: rest).drop pat.length
    else dropAfterFirst pat rest

theorem length_dropAfterFirst_le (pat : List Char) (l : List Char) :
    (dropAfterFirst pat l).length ≤ l.length := by
  induction l with
  | nil => simp [dropAfterFirst]
  | cons c rest ih =>
    simp only [dropAfterFirst]
    split
    · simp [Nat.sub_le]
    · exact le_trans ih (by simp)

/-- Pass 3, `re.sub(r"<ref[^>]*>.*?</ref>", "", text, flags=re.DOTALL)`:
remove reference spans.  `[^>]*` is a maximal run that must be followed by a
literal `>`, and the non-greedy `.*?` stops at the earliest later `</ref>`. -/
def stripRefs : List Char → List Char
  | [] => []
  | c :: rest =>
    let afterOpen := ((c :: rest).drop 4).dropWhile (fun d => d ≠ '>')
    if "<ref".toList.isPrefixOf (c :: rest) && ['>'].isPrefixOf afterOpen &&
        containsSub "</ref>".toList (afterOpen.drop 1) then
      stripRefs (dropAfterFirst "</ref>".toList (afterOpen.drop 1))
    else c :: stripRefs rest
  termination_by l => l.length
  decreasing_by
  · have h1 := length_dropAfterFirst_le "</ref>".toList
      ((((c :: rest).drop 4).dropWhile (fun d => decide (d ≠ '>'))).drop 1)
    have h2 := List.length_drop 1 (((c :: rest).drop 4).dropWhile (fun d => decide (d ≠ '>')))
    have h3 := length_dropWhile_le (fun d => decide (d ≠ '>')) ((c :: rest).drop 4)
    have h4 := List.length_drop 4 (c :: rest)
    simp only [List.length_cons] at h4 ⊢
    omega
  · simp

/-- Pass 4, `re.sub(r"<[^>]+>", "", text)`: remove remaining tag-delimited
markup (a `<`, a nonempty maximal run of non-`>` characters, then `>`). -/
def stripTags : List Char → List Char
  | [] => []
  | '<' :: rest =>
    let run := rest.takeWhile (fun d => d ≠ '>')
    let after := rest.dropWhile (fun d => d ≠ '>')
    if !run.isEmpty && ['>'].isPrefixOf after then stripTags (after.drop 1)
    else '<' :: stripTags rest
  | c :: rest => c :: stripTags rest
  termination_by l => l.length
  decreasing_by
  · have h1 := length_dropWhile_le (fun d => decide (d ≠ '>')) rest
    have h2 := List.length_drop 1 (rest.dropWhile (fun d => decide (d ≠ '>')))
    simp only [List.length_cons]
    omega
  · simp
  · simp

/-- Pass 5, `re.sub(r"http[s]?://\S+", "", text)`: remove URL-like substrings.
The optional `s` is tried first; `\S+` is a nonempty maximal run of
non-whitespace characters. -/
def stripUrls : List Char → List Char
  | [] => []
  | c :: rest =>
    if "https://".toList.isPrefixOf (c :: rest) &&
        !(((c :: rest).drop 8).takeWhile (fun d => !pyIsSpace d)).isEmpty then
      stripUrls (((c :: rest).drop 8).dropWhile (fun d => !pyIsSpace d))
    else if "http://".toList.isPrefixOf (c :: rest) &&
        !(((c :: rest).drop 7).takeWhile (fun d => !pyIsSpace d)).isEmpty then
      stripUrls (((c :: rest).drop 7).dropWhile (fun d => !pyIsSpace d))
    else c :: stripUrls rest
  termination_by l => l.length
  decreasing_by
  · rename_i h
    simp only [Bool.and_eq_true, Bool.not_eq_true', List.isEmpty_eq_false] at h
    have h1 := length_takeWhile_add_dropWhile (fun d => !pyIsSpace d) ((c :: rest).drop 8)
    have h2 := List.length_drop 8 (c :: rest)
    have h4 : 1 ≤ (((c :: rest).drop 8).takeWhile (fun d => !pyIsSpace d)).length := by
      cases hh : ((c :: rest).drop 8).takeWhile (fun d => !pyIsSpace d) with
      | nil => exact absurd hh h.2
      | cons a t => simp
    simp only [List.length_cons] at h1 h2 ⊢
    omega
  · rename_i h'
    simp only [Bool.and_eq_true, Bool.not_eq_true', List.isEmpty_eq_false] at h'
    have h1 := length_takeWhile_add_dropWhile (fun d => !pyIsSpace d) ((c :: rest).drop 7)
    have h2 := List.length_drop 7 (c :: rest)
    have h4 : 1 ≤ (((c :: rest).drop 7).takeWhile (fun d => !pyIsSpace d)).length := by
      cases hh : ((c :: rest).drop 7).takeWhile (fun d => !pyIsSpace d) with
      | nil => exact absurd hh h'.2
      | cons a t => simp
    simp only [List.length_cons] at h1 h2 ⊢
    omega
  · simp

/-- The keyword alternation `(?:Category|Thể loại|File|Tập tin):` of pass 6,
matched case-sensitively (see `stripCats`): returns the matched length, or 0
when no keyword-plus-colon is a prefix.  The four literals have pairwise
distinct prefixes, so Python's ordered alternation matches at most one. -/
def catKeywordLen (rest : List Char) : Nat :=
  if "Category:".toList.isPrefixOf rest then 9
  else if "Thể loại:".toList.isPrefixOf rest then 9
  else if "File:".toList.isPrefixOf rest then 5
  else if "Tập tin:".toList.isPrefixOf rest then 8
  else 0

/-- Pass 6, `re.sub(r"\[\[(?:Category|Thể loại|File|Tập tin):([^\]]+)\]\]", "",
text, re.IGNORECASE)`: remove category/file links.  NOTE the faithful
embedding of the source's argument slip: `re.IGNORECASE` (numeric value 2) is
passed positionally as the `count` argument of `re.sub`, so the pattern is
matched CASE-SENSITIVELY and at most `count` occurrences are replaced.
`extract_words` calls this with `count = 2`. -/
def stripCats : Nat → List Char → List Char
  | _, [] => []
  | 0, l => l
  | cnt + 1, '[' :: '[' :: rest =>
    let k := catKeywordLen rest
    let cap := (rest.drop k).takeWhile (fun c => c ≠ ']')
    let after := (rest.drop k).dropWhile (fun c => c ≠ ']')
    if k ≠ 0 && !cap.isEmpty && [']', ']'].isPrefixOf after then
      stripCats cnt (after.drop 2)
    else '[' :: stripCats (cnt + 1) ('[' :: rest)
  | cnt, c :: rest => c :: stripCats cnt rest
  termination_by _ l => l.length
  decreasing_by
  · have h1 := length_dropWhile_le (fun c => decide (c ≠ ']')) (rest.drop (catKeywordLen rest))
    have h2 := List.length_drop 2
      ((rest.drop (catKeywordLen rest)).dropWhile (fun c => decide (c ≠ ']')))
    have h3 := List.length_drop (catKeywordLen rest) rest
    simp only [List.length_cons]
    omega
  · simp
  · simp

/-- The sentence terminator class `[.!?;]` of the split pattern. -/
def sentencePunct (c : Char) : Bool :=
  c = '.' || c = '!' || c = '?' || c = ';'

/-- Is the first character whitespace? (lookahead for `[.!?;]\s+`). -/
def headIsSpace : List Char → Bool
  | [] => false
  | c :: _ => pyIsSpace c

/-- `re.split(r"[.!?;]\s+|\n+", text)`: split into sentence-like spans.  At
each position the first alternative (a terminator followed by a nonempty
maximal whitespace run) is tried before the second (a nonempty maximal run of
newlines); separators are discarded and the pieces — possibly empty —
are returned. -/
def splitSentencesAux (acc : List Char) : List Char → List (List Char)
  | [] => [acc.reverse]
  | c :: rest =>
    if sentencePunct c && headIsSpace rest then
      acc.reverse :: splitSentencesAux [] (rest.dropWhile pyIsSpace)
    else if c = '\n' then
      acc.reverse :: splitSentencesAux [] (rest.dropWhile (fun d => d = '\n'))
    else splitSentencesAux (c :: acc) rest
  termination_by l => l.length
  decreasing_by
  · have h1 := length_dropWhile_le pyIsSpace rest
    simp only [List.length_cons]
    omega
  · have h1 := length_dropWhile_le (fun d => decide (d = '\n')) rest
    simp only [List.length_cons]
    omega
  · simp

/-- The character class of the `word_pattern` regex
`[a-zA-Z<diacritics>đĐ]+`, with the two ASCII ranges expanded. -/
def wordChars : List Char :=
  (asciiLower ++ asciiUpper) ++ (vietnameseChars ++ ['Đ'])

/-- Membership in the `word_pattern` character class. -/
def isWordChar (c : Char) : Bool := wordChars.contains c

/-- The lowercase part of the `word_pattern` class: ASCII `a`-`z` plus the
enumerated lowercase diacritic letters (including `đ`).  Every emitted token
is built solely from these characters (claim C5). -/
def lowerWordChars : List Char := asciiLower ++ vietnameseChars

/-- `re.findall(word_pattern, sentence)`: the maximal runs of word-class
characters, in order. -/
def findWordsAux : List Char → List (List Char)
  | [] => []
  | c :: rest =>
    if isWordChar c then
      (c :: rest.takeWhile isWordChar) :: findWordsAux (rest.dropWhile isWordChar)
    else findWordsAux rest
  termination_by l => l.length
  decreasing_by
  · have h1 := length_dropWhile_le isWordChar rest
    simp only [List.length_cons]
    omega
  · simp

/-- The six markup-stripping passes of `extract_words`, in source order. -/
def stripMarkup (text : String) : List Char :=
  stripCats 2 (stripUrls (stripTags (stripRefs (resolveLinks (stripTemplates text.data)))))

/-- The sentence-like spans `extract_words` builds from the stripped text. -/
def sentencesOf (text : String) : List String :=
  (splitSentencesAux [] (stripMarkup text)).map (fun l => ⟨l⟩)

/-- The per-sentence token yield: each found word is lowercased and kept when
its lowercased length is at least 2. -/
def tokensOfSentence (s : String) : List String :=
  ((findWordsAux s.data).map (fun w => pyLower ⟨w⟩)).filter (fun w => 2 ≤ w.length)

/-- `WikiExtractor.extract_words`: sentences failing the diacritic gate
contribute nothing; the resulting `meaningful_words` set is modelled as a
duplicate-free list (iteration order immaterial downstream). -/
def extract_words (text : String) : List String :=
  (((sentencesOf text).filter hasVietnameseDiacritic).flatMap tokensOfSentence).dedup

/-! ### The page-boundary state machine (`WikiExtractor.parse_dump_regex`)

The dump is consumed line by line (each line string retains its trailing
newline, exactly as Python's file iteration yields it).  The mutable locals
`in_page`, `in_text`, `current_text`, `text_lines` form the state; the
per-record line cap (literal `10000` in the source, line 157) is an explicit
parameter `cap`.  Emitted values are the joined `current_text` of each
processed page; the caller (`parse_dump_regex`) passes each through
`extract_words` and spools the result, so an emission whose extraction is
empty contributes nothing downstream (matching the `if words:` guard). -/

structure PState where
  inPage : Bool
  inText : Bool
  currentText : List String
  textLines : Nat
deriving DecidableEq

/-- Capture of `re.search(r"<text[^>]*>(.*)", line, re.DOTALL)`: everything
after the `>` closing the first `<text...` opening.  (If the first `<text`
occurrence is not followed by any `>`, no later occurrence can be either, so
scanning only the first occurrence is faithful to `re.search`.) -/
def textOpenCapture (l : List Char) : Option (List Char) :=
  let afterGt := (dropAfterFirst "<text".toList l).dropWhile (fun c => c ≠ '>')
  if containsSub "<text".toList l && ['>'].isPrefixOf afterGt then some (afterGt.drop 1)
  else none

/-- The characters before the last occurrence of `pat` (the greedy capture of
`re.search(r"(.*)</text>", line, re.DOTALL)`; meaningful when
`containsSub pat l`). -/
def beforeLast (pat : List Char) : List Char → List Char
  | [] => []
  | c :: rest => if containsSub pat rest then c :: beforeLast pat rest else []

/-- One line of `parse_dump_regex`'s loop body.  Returns the successor state
and the list (empty or singleton) of record texts processed at this line. -/
def stepP (cap : Nat) (s : PState) (line : String) : PState × List String :=
  if containsSub "<page>".toList line.data then
    ({ inPage := true, inText := s.inText, currentText := [], textLines := 0 }, [])
  else if containsSub "</page>".toList line.data && s.inPage then
    if !s.currentText.isEmpty then
      ({ inPage := false, inText := s.inText, currentText := [], textLines := 0 },
        [String.join s.currentText])
    else ({ s with inPage := false }, [])
  else if s.inPage then
    if containsSub "<text".toList line.data then
      match textOpenCapture line.data with
      | some frag =>
        ({ s with inText := true,
                  currentText := s.currentText ++ [⟨frag⟩],
                  textLines := s.textLines + 1 }, [])
      | none => ({ s with inText := true }, [])
    else if containsSub "</text>".toList line.data then
      ({ s with inText := false,
                currentText := s.currentText ++ [⟨beforeLast "</text>".toList line.data⟩] }, [])
    else if s.inText then
      let s' := { s with currentText := s.currentText ++ [line],
                         textLines := s.textLines + 1 }
      if cap < s'.textLines then ({ s' with inText := false, currentText := [] }, [])
      else (s', [])
    else (s, [])
  else (s, [])

/-- Folding `stepP` over the lines, collecting every processed record text. -/
def runP (cap : Nat) : PState → List String → PState × List String
  | s, [] => (s, [])
  | s, line :: rest =>
    let r := stepP cap s line
    let r' := runP cap r.1 rest
    (r'.1, r.2 ++ r'.2)

/-- The initial state of the loop (`in_page = in_text = False`, empty buffer). -/
def initState : PState := ⟨false, false, [], 0⟩

/-- The record-line cap hardcoded in the source (`if text_lines > 10000`). -/
def pageLineCap : Nat := 10000

/-- `parse_dump_regex` at cap `cap`: the record texts processed, in order. -/
def parseDumpEmits (cap : Nat) (lines : List String) : List String :=
  (runP cap initState lines).2

/-- The spool-file contents after the parse phase: each processed record's
extracted word set, appended in order (`write_words_to_file`). -/
def spoolOf (cap : Nat) (lines : List String) : List String :=
  (parseDumpEmits cap lines).flatMap extract_words

/-- The whole pipeline: parse phase followed by `save_words` (primary path).
An empty result models the case where no output is produced at all (when
nothing was spooled the source writes no output file). -/
def pipeline (cap : Nat) (lines : List String) : List String :=
  saveWordsPrimary (spoolOf cap lines)

/-- A record whose text field spans more lines than a cap of 2: after the trip
the machine has discarded the accumulated text but is still inside the page
with a non-reset line counter. -/
def capTripPrefixLines : List String :=
  ["<page>\n", "<text>\n", "à1\n", "à2\n", "à3\n"]

/-- The same oversized record carried to completion, with record text in
front of the field-end marker on its closing line. -/
def capTripLeakLines : List String :=
  capTripPrefixLines ++ ["chào đó</text>\n", "</page>\n"]

/-- An oversized record (cap 2) whose field-end marker opens its closing line,
followed by a well-formed record. -/
def capScenarioLines : List String :=
  ["<page>\n", "<text>\n", "à1\n", "à2\n", "à3\n", "</text>\n", "</page>\n",
   "<page>\n", "<text>xin chào</text>\n", "</page>\n"]

/-! ### Lemmas about the deduplicator -/

theorem lineLe_antisymm {a b : String} (h1 : lineLe a b) (h2 : lineLe b a) : a = b :=
  String.toList_inj.mp (le_antisymm h1 h2)

theorem lineLt_of_le_of_ne {a b : String} (h : lineLe a b) (hne : b ≠ a) : lineLt a b :=
  lt_of_le_of_ne h (fun e => hne (String.toList_inj.mp e).symm)

theorem lineLt_ne {a b : String} (h : lineLt a b) : a ≠ b :=
  fun e => absurd (e ▸ h) (lt_irrefl a.data)

theorem mem_dedupAdjacentFrom {l : List String} {p : String} (hs : l.Sorted lineLe)
    (hp : ∀ x ∈ l, lineLe p x) (w : String) :
    w ∈ dedupAdjacentFrom p l ↔ w ∈ l ∧ w ≠ p := by
  induction l generalizing p with
  | nil => simp [dedupAdjacentFrom]
  | cons a rest ih =>
    rw [List.sorted_cons] at hs
    by_cases hap : a = p
    · rw [dedupAdjacentFrom, if_pos hap]
      subst hap
      rw [ih hs.2 hs.1]
      simp only [List.mem_cons]
      constructor
      · rintro ⟨hmem, hne⟩
        exact ⟨Or.inr hmem, hne⟩
      · rintro ⟨ha | hmem, hne⟩
        · exact absurd ha hne
        · exact ⟨hmem, hne⟩
    · rw [dedupAdjacentFrom, if_neg hap]
      simp only [List.mem_cons, ih hs.2 hs.1]
      constructor
      · rintro (h | ⟨hmem, hne⟩)
        · exact ⟨Or.inl h, h ▸ hap⟩
        · refine ⟨Or.inr hmem, ?_⟩
          intro hwp
          subst hwp
          exact hap (lineLe_antisymm (hs.1 w hmem) (hp a (List.mem_cons_self a rest)))
      · rintro ⟨ha | hmem, hne⟩
        · exact Or.inl ha
        · by_cases hwa : w = a
          · exact Or.inl hwa
          · exact Or.inr ⟨hmem, hwa⟩

theorem sorted_dedupAdjacentFrom {l : List String} {p : String} (hs : l.Sorted lineLe)
    (hp : ∀ x ∈ l, lineLe p x) : (dedupAdjacentFrom p l).Sorted lineLt := by
  induction l generalizing p with
  | nil => simp [dedupAdjacentFrom, List.Sorted]
  | cons a rest ih =>
    rw [List.sorted_cons] at hs
    by_cases hap : a = p
    · rw [dedupAdjacentFrom, if_pos hap]
      exact ih hs.2 (fun x hx => hap ▸ hs.1 x hx)
    · rw [dedupAdjacentFrom, if_neg hap]
      rw [List.sorted_cons]
      refine ⟨?_, ih hs.2 hs.1⟩
      intro b hb
      rw [mem_dedupAdjacentFrom hs.2 hs.1 b] at hb
      exact lineLt_of_le_of_ne (hs.1 b hb.1) hb.2

theorem mem_dedupAdjacent {l : List String} (hs : l.Sorted lineLe) (w : String) :
    w ∈ dedupAdjacent l ↔ w ∈ l := by
  cases l with
  | nil => simp [dedupAdjacent]
  | cons a rest =>
    rw [List.sorted_cons] at hs
    simp only [dedupAdjacent, List.mem_cons, mem_dedupAdjacentFrom hs.2 hs.1]
    constructor
    · rintro (h | ⟨hmem, _⟩)
      · exact Or.inl h
      · exact Or.inr hmem
    · rintro (h | hmem)
      · exact Or.inl h
      · by_cases hwa : w = a
        · exact Or.inl hwa
        · exact Or.inr ⟨hmem, hwa⟩

theorem sorted_dedupAdjacent {l : List String} (hs : l.Sorted lineLe) :
    (dedupAdjacent l).Sorted lineLt := by
  cases l with
  | nil => simp [dedupAdjacent, List.Sorted]
  | cons a rest =>
    rw [List.sorted_cons] at hs
    rw [dedupAdjacent, List.sorted_cons]
    refine ⟨?_, sorted_dedupAdjacentFrom hs.2 hs.1⟩
    intro b hb
    rw [mem_dedupAdjacentFrom hs.2 hs.1 b] at hb
    exact lineLt_of_le_of_ne (hs.1 b hb.1) hb.2

theorem sorted_sortLines (l : List String) : (sortLines l).Sorted lineLe :=
  List.sorted_insertionSort lineLe l

theorem mem_sortLines (l : List String) (w : String) : w ∈ sortLines l ↔ w ∈ l :=
  (List.perm_insertionSort lineLe l).mem_iff

theorem streamDedup_some_eq {l : List String} (h : ∀ w ∈ l, pyStrip w = w ∧ w ≠ "")
    (p : String) : streamDedup (some p) l = dedupAdjacentFrom p l := by
  induction l generalizing p with
  | nil => simp [streamDedup, dedupAdjacentFrom]
  | cons a rest ih =>
    have ha := h a (List.mem_cons_self a rest)
    have hrest : ∀ w ∈ rest, pyStrip w = w ∧ w ≠ "" :=
      fun w hw => h w (List.mem_cons_of_mem a hw)
    rw [streamDedup, dedupAdjacentFrom]
    by_cases hap : a = p
    · rw [if_neg, if_pos hap]
      · exact ih hrest p
      · rw [ha.1]
        simp [hap]
    · rw [if_pos, if_neg hap, ha.1]
      · rw [ih hrest a]
      · rw [ha.1]
        simp [ha.2, hap]

theorem streamDedup_none_eq {l : List String} (h : ∀ w ∈ l, pyStrip w = w ∧ w ≠ "") :
    streamDedup none l = dedupAdjacent l := by
  cases l with
  | nil => simp [streamDedup, dedupAdjacent]
  | cons a rest =>
    have ha := h a (List.mem_cons_self a rest)
    have hrest : ∀ w ∈ rest, pyStrip w = w ∧ w ≠ "" :=
      fun w hw => h w (List.mem_cons_of_mem a hw)
    rw [streamDedup, dedupAdjacent, if_pos, ha.1]
    · rw [streamDedup_some_eq hrest a]
    · rw [ha.1]
      simp [ha.2]

/-! ### Lemmas about the extractor -/

theorem mem_findWordsAux_wordChar {l : List Char} {w : List Char} (hw : w ∈ findWordsAux l) :
    ∀ c ∈ w, isWordChar c = true := by
  induction l using findWordsAux.induct with
  | case1 => simp [findWordsAux] at hw
  | case2 c rest hc ih =>
    rw [findWordsAux, if_pos hc] at hw
    rcases List.mem_cons.mp hw with h | h
    · subst h
      intro d hd
      rcases List.mem_cons.mp hd with h' | h'
      · exact h' ▸ hc
      · exact List.mem_takeWhile_imp h'
    · exact ih h
  | case3 c rest hc ih =>
    rw [findWordsAux, if_neg hc] at hw
    exact ih hw

set_option maxRecDepth 8000 in
theorem pyLowerChar_wordChar_mem_lower :
    ∀ c ∈ wordChars, pyLowerChar c ∈ lowerWordChars := by decide

theorem mem_tokensOfSentence_shape {s : String} {w : String} (h : w ∈ tokensOfSentence s) :
    2 ≤ w.length ∧ ∀ c ∈ w.data, c ∈ lowerWordChars := by
  simp only [tokensOfSentence, List.mem_filter, List.mem_map, decide_eq_true_eq] at h
  obtain ⟨⟨v, hv, hw⟩, hlen⟩ := h
  refine ⟨hlen, ?_⟩
  intro c hc
  rw [← hw] at hc
  have hcd : c ∈ v.map pyLowerChar := hc
  obtain ⟨d, hd, hdc⟩ := List.mem_map.mp hcd
  have hdw : isWordChar d = true := mem_findWordsAux_wordChar hv d hd
  have hdmem : d ∈ wordChars := by
    rw [isWordChar] at hdw
    exact List.mem_of_elem_eq_true hdw
  exact hdc ▸ pyLowerChar_wordChar_mem_lower d hdmem

theorem mem_extract_words {text : String} {w : String} :
    w ∈ extract_words text ↔
      ∃ s, s ∈ sentencesOf text ∧ hasVietnameseDiacritic s = true ∧ w ∈ tokensOfSentence s := by
  simp only [extract_words, List.mem_dedup, List.mem_flatMap, List.mem_filter]
  constructor
  · rintro ⟨s, ⟨hs, hgate⟩, hw⟩
    exact ⟨s, hs, hgate, hw⟩
  · rintro ⟨s, hs, hgate, hw⟩
    exact ⟨s, ⟨hs, hgate⟩, hw⟩

/-! ### Lemmas about the state machine -/

theorem stepP_page (cap : Nat) (s : PState) (line : String)
    (h : containsSub "<page>".toList line.data = true) :
    stepP cap s line =
      ({ inPage := true, inText := s.inText, currentText := [], textLines := 0 }, []) := by
  rw [stepP, if_pos h]

theorem runP_page_prior_state (cap : Nat) (s s' : PState) (line : String) (rest : List String)
    (h : containsSub "<page>".toList line.data = true) (hit : s.inText = s'.inText) :
    runP cap s (line :: rest) = runP cap s' (line :: rest) := by
  rw [runP, runP, stepP_page cap s line h, stepP_page cap s' line h, hit]

/-! ### Concrete evaluations shared by several claims -/

theorem eval_extract_xin_chao : extract_words "xin chào" = ["xin", "chào"] := by
  simp +decide [extract_words, sentencesOf, stripMarkup, stripCats, stripUrls, stripTags,
    stripRefs, resolveLinks, stripTemplates, splitSentencesAux, sentencePunct, headIsSpace,
    tokensOfSentence, findWordsAux, isWordChar, wordChars, hasVietnameseDiacritic, pyLower,
    pyLowerChar, lowerTable, catKeywordLen, List.dedup]

theorem eval_extract_empty : extract_words "" = [] := by
  simp +decide [extract_words, sentencesOf, stripMarkup, stripCats, stripUrls, stripTags,
    stripRefs, resolveLinks, stripTemplates, splitSentencesAux, sentencePunct, headIsSpace,
    tokensOfSentence, findWordsAux, isWordChar, wordChars, hasVietnameseDiacritic, pyLower,
    pyLowerChar, lowerTable, catKeywordLen, List.dedup]

theorem eval_extract_digits : extract_words "12345 !?" = [] := by
  simp +decide [extract_words, sentencesOf, stripMarkup, stripCats, stripUrls, stripTags,
    stripRefs, resolveLinks, stripTemplates, splitSentencesAux, sentencePunct, headIsSpace,
    tokensOfSentence, findWordsAux, isWordChar, wordChars, hasVietnameseDiacritic, pyLower,
    pyLowerChar, lowerTable, catKeywordLen, List.dedup]

theorem eval_extract_anh_xy : extract_words "Ành xy" = ["nh", "xy"] := by
  simp +decide [extract_words, sentencesOf, stripMarkup, stripCats, stripUrls, stripTags,
    stripRefs, resolveLinks, stripTemplates, splitSentencesAux, sentencePunct, headIsSpace,
    tokensOfSentence, findWordsAux, isWordChar, wordChars, hasVietnameseDiacritic, pyLower,
    pyLowerChar, lowerTable, catKeywordLen, List.dedup]

theorem eval_extract_chao_hello : extract_words "chào. Hello world." = ["chào"] := by
  simp +decide [extract_words, sentencesOf, stripMarkup, stripCats, stripUrls, stripTags,
    stripRefs, resolveLinks, stripTemplates, splitSentencesAux, sentencePunct, headIsSpace,
    tokensOfSentence, findWordsAux, isWordChar, wordChars, hasVietnameseDiacritic, pyLower,
    pyLowerChar, lowerTable, catKeywordLen, List.dedup]

theorem eval_spool_capScenario : spoolOf 2 capScenarioLines = ["xin", "chào"] := by
  simp +decide [spoolOf, parseDumpEmits, capScenarioLines, runP, stepP, containsSub,
    dropAfterFirst, textOpenCapture, beforeLast, initState, String.join, extract_words,
    sentencesOf, stripMarkup, stripCats, stripUrls, stripTags, stripRefs, resolveLinks,
    stripTemplates, splitSentencesAux, sentencePunct, headIsSpace, tokensOfSentence,
    findWordsAux, isWordChar, wordChars, hasVietnameseDiacritic, pyLower, pyLowerChar,
    lowerTable, catKeywordLen, pyIsSpace, List.dedup]

theorem eval_spool_capLeak : spoolOf 2 capTripLeakLines = ["chào", "đó"] := by
  simp +decide [spoolOf, parseDumpEmits, capTripLeakLines, capTripPrefixLines, runP, stepP,
    containsSub, dropAfterFirst, textOpenCapture, beforeLast, initState, String.join,
    extract_words, sentencesOf, stripMarkup, stripCats, stripUrls, stripTags, stripRefs,
    resolveLinks, stripTemplates, splitSentencesAux, sentencePunct, headIsSpace,
    tokensOfSentence, findWordsAux, isWordChar, wordChars, hasVietnameseDiacritic, pyLower,
    pyLowerChar, lowerTable, catKeywordLen, pyIsSpace, List.dedup]

/-! ## The claims -/

/-- Claim C1: for every finalized spool file (its lines are tokens, hence
never blank), the deduplicator (`save_words`) produces an output whose lines
are exactly the distinct lines of the spool — each appearing exactly once
(the output is duplicate-free), sorted strictly ascending in byte order, with
no blank lines; in particular the spool `["anh","anh","em","anh"]` yields
`["anh","em"]`. -/
theorem save_words_sorted_unique (spool : List String) (hnb : "" ∉ spool) :
    (∀ w, w ∈ saveWordsPrimary spool ↔ w ∈ spool) ∧
    (saveWordsPrimary spool).Sorted lineLt ∧
    (saveWordsPrimary spool).Nodup ∧
    "" ∉ saveWordsPrimary spool ∧
    saveWordsPrimary ["anh", "anh", "em", "anh"] = ["anh", "em"] := by
  have hmem : ∀ w, w ∈ saveWordsPrimary spool ↔ w ∈ spool := by
    intro w
    rw [saveWordsPrimary, mem_dedupAdjacent (sorted_sortLines spool), mem_sortLines]
  have hsorted : (saveWordsPrimary spool).Sorted lineLt :=
    sorted_dedupAdjacent (sorted_sortLines spool)
  refine ⟨hmem, hsorted, ?_, ?_, by decide⟩
  · exact hsorted.imp (fun h => lineLt_ne h)
  · intro hmem0
    exact hnb ((hmem "").mp hmem0)

theorem save_words_sorted_unique_witness :
    ("" ∉ (["anh", "anh", "em", "anh"] : List String)) ∧
    saveWordsPrimary ["anh", "anh", "em", "anh"] = ["anh", "em"] :=
  ⟨by decide, (save_words_sorted_unique ["anh", "anh", "em", "anh"] (by decide)).2.2.2.2⟩

/-- Claim C2 (counterexample): with cap 2, after a record's text field
exceeds the cap, the line counter is NOT reset (it reads 3) and the machine
is NOT forced to Idle (it is still inside the page); moreover the oversized
record still contributes tokens, captured from before the field-end marker
on its closing line.  The abandonment semantics stated by the claim fail on
this code. -/
theorem cap_overflow_counterexample :
    (runP 2 initState capTripPrefixLines).1.textLines = 3 ∧
    (runP 2 initState capTripPrefixLines).1.inPage = true ∧
    spoolOf 2 capTripLeakLines = ["chào", "đó"] ∧
    (["chào", "đó"] : List String) ≠ [] :=
  ⟨by decide, by decide, eval_spool_capLeak, by decide⟩

/-- Claim C2 (amended): when the line counter exceeds the configured cap
while in the text field (on a marker-free line), the accumulator is cleared
and the in-text flag is dropped, but the line counter is not reset and the
machine stays inside the record (it is not forced to Idle); the record
contributes tokens only from text preceding the field-end marker on its
closing line — zero tokens when the marker opens that line — and a
well-formed record immediately following still yields its expected tokens
(concretely: with cap 2, an oversized record whose closing line is
`</text>` followed by a well-formed record spools exactly the latter's
tokens). -/
theorem cap_overflow_behavior (cap : Nat) (s : PState) (line : String)
    (h1 : containsSub "<page>".toList line.data = false)
    (h2 : containsSub "</page>".toList line.data = false)
    (h3 : containsSub "<text".toList line.data = false)
    (h4 : containsSub "</text>".toList line.data = false)
    (h5 : s.inPage = true) (h6 : s.inText = true)
    (h7 : cap < s.textLines + 1) :
    stepP cap s line =
      ({ inPage := true, inText := false, currentText := [], textLines := s.textLines + 1 },
        []) ∧
    spoolOf 2 capScenarioLines = ["xin", "chào"] := by
  refine ⟨?_, eval_spool_capScenario⟩
  rw [stepP]
  simp only [h1, h2, h3, h4, h5, h6, h7, Bool.false_eq_true, if_false, Bool.false_and,
    if_true, if_pos]

theorem cap_overflow_behavior_witness :
    (containsSub "<page>".toList "à3\n".data = false ∧
      containsSub "</page>".toList "à3\n".data = false ∧
      containsSub "<text".toList "à3\n".data = false ∧
      containsSub "</text>".toList "à3\n".data = false ∧
      (⟨true, true, [], 2⟩ : PState).inPage = true ∧
      (⟨true, true, [], 2⟩ : PState).inText = true ∧
      2 < (⟨true, true, [], 2⟩ : PState).textLines + 1) ∧
    (stepP 2 ⟨true, true, [], 2⟩ "à3\n" =
        ({ inPage := true, inText := false, currentText := [], textLines := 3 }, []) ∧
      spoolOf 2 capScenarioLines = ["xin", "chào"]) :=
  ⟨⟨by decide, by decide, by decide, by decide, rfl, rfl, by decide⟩,
    cap_overflow_behavior 2 ⟨true, true, [], 2⟩ "à3\n" (by decide) (by decide) (by decide)
      (by decide) rfl rfl (by decide)⟩

/-- Claim C3 (counterexample): fed as the single-line stream it literally is,
the Scenario A input only ever triggers the page-start branch (the source
tests `"<page>" in line` first), no record is completed, nothing is spooled,
and the pipeline produces no output instead of `["chào","xin"]`. -/
theorem scenario_a_single_line_counterexample :
    pipeline pageLineCap ["<page><text>Xin chào. Hello world.</text></page>"] = [] ∧
    ([] : List String) ≠ ["chào", "xin"] :=
  ⟨by decide, by decide⟩

/-- Claim C3 (amended): with the record markers on lines of their own —
`<page>` / `<text>Xin chào. Hello world.</text>` / `</page>` — the span
"Xin chào" passes the diacritic gate yielding tokens `xin` and `chào`, the
span "Hello world" is dropped, and the final output is `["chào","xin"]`;
fed as one single line, the same markup reaches only the page-start branch
and produces no output. -/
theorem scenario_a_multiline :
    pipeline pageLineCap
        ["<page>\n", "<text>Xin chào. Hello world.</text>\n", "</page>\n"]
      = ["chào", "xin"] ∧
    pipeline pageLineCap ["<page><text>Xin chào. Hello world.</text></page>"] = [] := by
  constructor
  · simp +decide [pipeline, spoolOf, parseDumpEmits, runP, stepP, containsSub, dropAfterFirst,
      textOpenCapture, beforeLast, initState, pageLineCap, extract_words, sentencesOf,
      stripMarkup, stripCats, stripUrls, stripTags, stripRefs, resolveLinks, stripTemplates,
      splitSentencesAux, sentencePunct, headIsSpace, tokensOfSentence, findWordsAux, isWordChar,
      wordChars, hasVietnameseDiacritic, pyLower, pyLowerChar, lowerTable, catKeywordLen,
      saveWordsPrimary, sortLines, dedupAdjacent, dedupAdjacentFrom, lineLe, pyIsSpace,
      List.insertionSort, List.orderedInsert, String.join, List.dedup]
  · decide

/-- Claim C4: on any spool file whose lines are tokens (nonempty and free of
leading/trailing whitespace, as every spooled token is), the primary path of
`save_words` (`sort -u`) and the fallback path (`sort` followed by the
streaming adjacent-duplicate pass) produce identical output line sequences,
hence byte-identical output files. -/
theorem dedup_paths_agree (spool : List String)
    (h : ∀ w ∈ spool, pyStrip w = w ∧ w ≠ "") :
    saveWordsFallback spool = saveWordsPrimary spool := by
  rw [saveWordsFallback, saveWordsPrimary]
  apply streamDedup_none_eq
  intro w hw
  exact h w ((mem_sortLines spool w).mp hw)

theorem dedup_paths_agree_witness :
    (∀ w ∈ (["em", "anh", "anh"] : List String), pyStrip w = w ∧ w ≠ "") ∧
    saveWordsFallback ["em", "anh", "anh"] = saveWordsPrimary ["em", "anh", "anh"] :=
  ⟨by decide, dedup_paths_agree ["em", "anh", "anh"] (by decide)⟩

/-- Claim C5: every token emitted by the extractor has length at least 2 and
consists solely of lowercase characters of the word pattern's alphabet
(ASCII `a`-`z` plus the enumerated diacritic letters) — in particular no
digits, punctuation or whitespace. -/
theorem tokens_lowercase_min_length (text : String) (w : String)
    (h : w ∈ extract_words text) :
    2 ≤ w.length ∧ ∀ c ∈ w.data, c ∈ lowerWordChars := by
  obtain ⟨s, _, _, htok⟩ := mem_extract_words.mp h
  exact mem_tokensOfSentence_shape htok

theorem tokens_lowercase_min_length_witness :
    "chào" ∈ extract_words "xin chào" ∧
    (2 ≤ "chào".length ∧ ∀ c ∈ "chào".data, c ∈ lowerWordChars) := by
  have hmem : "chào" ∈ extract_words "xin chào" := by
    rw [eval_extract_xin_chao]
    decide
  exact ⟨hmem, tokens_lowercase_min_length "xin chào" "chào" hmem⟩

/-- Claim C6: every token of the extractor's output originates from a
sentence-like span that passes the diacritic gate; hence a span containing
no character of the diacritic alphabet contributes zero tokens. -/
theorem nondiacritic_span_contributes_nothing (text : String) (w : String)
    (h : w ∈ extract_words text) :
    ∃ s, s ∈ sentencesOf text ∧ hasVietnameseDiacritic s = true ∧ w ∈ tokensOfSentence s :=
  mem_extract_words.mp h

theorem nondiacritic_span_contributes_nothing_witness :
    "chào" ∈ extract_words "chào. Hello world." ∧
    ∃ s, s ∈ sentencesOf "chào. Hello world." ∧ hasVietnameseDiacritic s = true ∧
      "chào" ∈ tokensOfSentence s := by
  have hmem : "chào" ∈ extract_words "chào. Hello world." := by
    rw [eval_extract_chao_hello]
    decide
  exact ⟨hmem, nondiacritic_span_contributes_nothing "chào. Hello world." "chào" hmem⟩

/-- Claim C7 (code bug): the source passes `re.IGNORECASE` (numeric value 2)
as the positional `count` argument of `re.sub`, so the category/file pass
matches its keywords CASE-SENSITIVELY and replaces at most two occurrences:
a lowercase `[[category:...]]` link survives the pass, a correctly-cased one
is removed, and of three correctly-cased links only the first two are
removed. -/
theorem category_pass_case_sensitive :
    stripCats 2 "[[category:Ảnh]]".toList = "[[category:Ảnh]]".toList ∧
    stripCats 2 "[[Category:Ảnh]]".toList = [] ∧
    stripCats 2 "[[Category:A]]x[[Category:B]]y[[Category:C]]".toList
      = "xy[[Category:C]]".toList := by
  refine ⟨?_, ?_, ?_⟩ <;> simp +decide [stripCats, catKeywordLen]

/-- Claim C8: the stripping, filtering and extraction logic is total — for
every input string `extract_words` returns a result, possibly empty, and the
concrete evaluations below exhibit both the empty and nonempty outcomes. -/
theorem extract_words_total :
    (∀ text : String, ∃ ws : List String, extract_words text = ws) ∧
    extract_words "" = [] ∧
    extract_words "12345 !?" = [] ∧
    extract_words "xin chào" = ["xin", "chào"] :=
  ⟨fun text => ⟨extract_words text, rfl⟩, eval_extract_empty, eval_extract_digits,
    eval_extract_xin_chao⟩

/-- Claim C9: the diacritic gate is case-insensitive — a span qualifies
exactly when its lowercased form contains a character of the fixed diacritic
alphabet; a span whose only diacritic character is the uppercase `À` still
qualifies and contributes tokens. -/
theorem diacritic_gate_case_insensitive :
    (∀ s : String,
      hasVietnameseDiacritic s = true ↔ ∃ c ∈ (pyLower s).data, c ∈ vietnameseChars) ∧
    hasVietnameseDiacritic "À" = true ∧
    extract_words "Ành xy" = ["nh", "xy"] := by
  refine ⟨?_, by decide, eval_extract_anh_xy⟩
  intro s
  rw [hasVietnameseDiacritic, List.any_eq_true]
  constructor
  · rintro ⟨c, hc, hcc⟩
    exact ⟨c, hc, List.mem_of_elem_eq_true hcc⟩
  · rintro ⟨c, hc, hcc⟩
    exact ⟨c, hc, List.elem_eq_true_of_mem hcc⟩

/-- Claim C10: a line carrying the record-start marker resets the text
accumulator and the line counter (and processes no record) whatever the
prior state; and from such a line onward the machine's entire behaviour —
emissions included — is independent of the prior accumulator, counter and
page flag (only the carried-over in-text flag matters), so no text of an
earlier abandoned or truncated record can leak into a later record. -/
theorem page_start_resets_accumulator (cap : Nat) (s s' : PState) (line : String)
    (rest : List String) (h : containsSub "<page>".toList line.data = true)
    (hit : s.inText = s'.inText) :
    (stepP cap s line).1.currentText = [] ∧
    (stepP cap s line).1.textLines = 0 ∧
    (stepP cap s line).2 = [] ∧
    runP cap s (line :: rest) = runP cap s' (line :: rest) := by
  refine ⟨?_, ?_, ?_, runP_page_prior_state cap s s' line rest h hit⟩ <;>
    rw [stepP_page cap s line h]

theorem page_start_resets_accumulator_witness :
    (containsSub "<page>".toList "<page>\n".data = true ∧
      (⟨false, true, ["leftover\n"], 5⟩ : PState).inText = (⟨true, true, [], 0⟩ : PState).inText) ∧
    ((stepP 10000 ⟨false, true, ["leftover\n"], 5⟩ "<page>\n").1.currentText = [] ∧
      (stepP 10000 ⟨false, true, ["leftover\n"], 5⟩ "<page>\n").1.textLines = 0 ∧
      (stepP 10000 ⟨false, true, ["leftover\n"], 5⟩ "<page>\n").2 = [] ∧
      runP 10000 ⟨false, true, ["leftover\n"], 5⟩ ["<page>\n", "à\n"] =
        runP 10000 ⟨true, true, [], 0⟩ ["<page>\n", "à\n"]) :=
  ⟨⟨by decide, rfl⟩,
    page_start_resets_accumulator 10000 ⟨false, true, ["leftover\n"], 5⟩ ⟨true, true, [], 0⟩
      "<page>\n" ["à\n"] (by decide) rfl⟩

end WikiWords
